import Mathlib

/-!
Verification development for the hazard-calculation core of the oq-engine
snapshot: the source-site filtering pipeline
(`openquake/hazardlib/calc/filters.py`) and the hazard-curve / hazard-map
utilities (`openquake/commonlib/calc.py`).

Real-valued numerical code (probabilities, logarithms, exponentials) is
embedded over `ℝ`; the piecewise integration-distance machinery and the
geometry-free parts of the filters are embedded over `ℚ`, which keeps them
computable.  Python exceptions are embedded as `Except PyErr`.
-/

namespace OQ

/-- A Python exception, reduced to its class name and its message. -/
structure PyErr where
  kind : String
  msg : String
deriving DecidableEq, Repr

/-! ### `_gmvs_to_haz_curve` (openquake/commonlib/calc.py, lines 193-227) -/

/-- The number of ground-motion values that are `≥ iml`; this is
`numpy.sum(numpy.array(gmvs) >= imls, axis=1)` for one row `iml`. -/
noncomputable def countExceeding (iml : ℝ) : List ℝ → ℕ
  | [] => 0
  | g :: gs => (if iml ≤ g then 1 else 0) + countExceeding iml gs

/-- The function `_gmvs_to_haz_curve(gmvs, imls, invest_time, duration)`:
`poes = 1 - numpy.exp(- (invest_time / duration) * num_exceeding)`. -/
noncomputable def gmvs_to_haz_curve (gmvs imls : List ℝ) (invest_time duration : ℝ) :
    List ℝ :=
  imls.map fun iml =>
    1 - Real.exp (-(invest_time / duration) * (countExceeding iml gmvs : ℝ))

/-! ### `compute_hazard_maps` (openquake/commonlib/calc.py, lines 131-187) -/

/-- The cutoff value for the poes: `EPSILON = 1E-30`. -/
noncomputable def EPSILON : ℝ := 1 / 10 ^ 30

/-- The function `numpy.interp(x, xp, fp)` with the points given as a list of pairs
`(xp i, fp i)`: piecewise-linear interpolation, returning the first
(resp. last) ordinate for abscissas below (resp. above) the range. -/
noncomputable def npInterp (x : ℝ) : List (ℝ × ℝ) → ℝ
  | [] => 0
  | [(_, f1)] => f1
  | (x1, f1) :: (x2, f2) :: ps =>
    if x ≤ x1 then f1
    else if x ≤ x2 then f1 + (f2 - f1) * (x - x1) / (x2 - x1)
    else npInterp x ((x2, f2) :: ps)

/-- The clipped reversed curve: `curve_cutoff = [max(poe, EPSILON) for poe in curve[::-1]]`. -/
noncomputable def curveCutoff (curve : List ℝ) : List ℝ :=
  curve.reverse.map fun p => max p EPSILON

/-- The body of the inner loop of `compute_hazard_maps`, for one curve and one
target poe.  `limls` is `numpy.log(numpy.array(imls[::-1]))`, already computed
outside the loop; the clipped reversed curve is `curveCutoff curve`.  If the
target poe exceeds `curve_cutoff[-1]` the iml is extrapolated to 0, otherwise
it is `numpy.exp(numpy.interp(numpy.log(poe), numpy.log(curve_cutoff), imls))`. -/
noncomputable def hmapVal (limls : List ℝ) (curve : List ℝ) (poe : ℝ) : ℝ :=
  let cutoff := curveCutoff curve
  if poe > cutoff.getLastD 0 then 0
  else Real.exp (npInterp (Real.log poe) ((cutoff.map Real.log).zip limls))

/-- The function `compute_hazard_maps(curves, imls, poes)` for a 2-D array of curves:
an N x P array of interpolated intensity levels. -/
noncomputable def compute_hazard_maps (curves : List (List ℝ)) (imls poes : List ℝ) :
    List (List ℝ) :=
  let limls := imls.reverse.map Real.log
  curves.map fun curve => poes.map (hmapVal limls curve)

/-- The function `compute_hazard_maps` when `curves` is passed as a 1-dimensional array:
the code reshapes it to a 1 x L matrix and proceeds. -/
noncomputable def compute_hazard_maps1 (curve : List ℝ) (imls poes : List ℝ) :
    List (List ℝ) :=
  compute_hazard_maps [curve] imls poes

/-- The maximum of the clipped probabilities of a curve (all clipped values
are positive, so folding `max` with initial value 0 returns the maximum on a
nonempty curve).  This follows the specification's words, to be compared with
the `curve_cutoff[-1]` used by the code. -/
noncomputable def maxClipped (curve : List ℝ) : ℝ :=
  (curve.map fun p => max p EPSILON).foldr max 0

/-- The hazard-map entry as the specification words it: 0 when the target
probability exceeds the curve's *maximum* clipped probability, otherwise
linear interpolation of `log poe` against the log-clipped-probabilities
mapped to log-intensity-levels, exponentiated back. -/
noncomputable def specHmapVal (curve : List ℝ) (imls : List ℝ) (poe : ℝ) : ℝ :=
  if poe > maxClipped curve then 0
  else Real.exp (npInterp (Real.log poe)
    ((curveCutoff curve).map Real.log |>.zip (imls.reverse.map Real.log)))

/-! ### `Piecewise` (openquake/hazardlib/calc/filters.py, lines 139-154) -/

/-- The ultra big distance used if there is no filter: `MAX_DISTANCE = 2000` km. -/
def MAX_DISTANCE : ℚ := 2000

/-- The piecewise-linear interpolant from the abscissas `x1 :: x2 :: rest` to
the indices `i, i+1, ...`: the fractional index of `v`, assuming
`x1 ≤ v ≤ last`.  This is the in-range part of
`interp1d(x, range(len(x)))` used by `Piecewise.__init__`. -/
def segIdx (v : ℚ) : ℕ → List ℚ → ℚ
  | i, [] => (i : ℚ)
  | i, [_] => (i : ℚ)
  | i, x1 :: x2 :: rest =>
    if v ≤ x2 then (i : ℚ) + (v - x1) / (x2 - x1)
    else segIdx v (i + 1) (x2 :: rest)

/-- The interpolant `interp1d(x, range(len(x)), bounds_error=False, fill_value=(0, len(x)-1))`
evaluated at `v`: 0 below the range, `len(x) - 1` above it, linear in
between. -/
def interp1dIdx (x : List ℚ) (v : ℚ) : ℚ :=
  if v < x.headD 0 then 0
  else if x.getLastD 0 < v then (x.length : ℚ) - 1
  else segIdx v 0 x

/-- The `Piecewise` class: two arrays of non-decreasing values. -/
structure Piecewise where
  x : List ℚ
  y : List ℚ
deriving DecidableEq

/-- The method `Piecewise.__call__`: `idx = int64(ceil(self.piecewise(x))); self.y[idx]`. -/
def Piecewise.call (p : Piecewise) (v : ℚ) : ℚ :=
  p.y.getD (Int.ceil (interp1dIdx p.x v)).toNat 0

/-- The number of elements of a list that are strictly below `v`; the
piecewise lookup of a strictly increasing abscissa list is characterized
through this count. -/
def countLT (v : ℚ) : List ℚ → ℕ
  | [] => 0
  | a :: l => (if a < v then 1 else 0) + countLT v l

/-! ### `IntegrationDistance` (openquake/hazardlib/calc/filters.py, 157-243) -/

/-- One value of the integration-distance dictionary: after `__init__` it is
either a scalar (`float(value)`) or a list of `(magnitude, distance)`
pairs. -/
inductive MagDist where
  | scalar (d : ℚ)
  | pairs (l : List (ℚ × ℚ))
deriving DecidableEq

/-- The function `getdefault(dic_with_default, key)`: the value associated to the key, or
to the `default` key; a `KeyError` (on key `default`) when both are missing. -/
def getdefault (dic : List (String × α)) (key : String) : Except PyErr α :=
  match dic.lookup key with
  | some v => .ok v
  | none =>
    match dic.lookup "default" with
    | some v => .ok v
    | none => .error ⟨"KeyError", "default"⟩

/-- The `IntegrationDistance` mapping.  `__init__` stores the dictionary and
splits list values into `self.magdist`; since every entry is already tagged
scalar-or-pairs here, keeping `dic` alone is equivalent (`__call__` reads the
pairs through `getdefault(self.magdist, trt)`, which resolves to the same
entry as `getdefault(self.dic, trt)`). -/
structure IntegrationDistance where
  dic : List (String × MagDist)
deriving DecidableEq

/-- The constructor `IntegrationDistance.__init__(dic)`: no validation is performed — the
constructor only stores the dictionary (and can therefore not raise for a
table missing a queried TRT and the `default` key). -/
def IntegrationDistance.init (dic : List (String × MagDist)) : IntegrationDistance :=
  ⟨dic⟩

/-- The pairs branch of `IntegrationDistance.__call__`: unzip the control
points, extend them with the synthetic point `(11, MAX_DISTANCE)` when the
last magnitude is below 11, and evaluate the `Piecewise` function. -/
def magdistLookup (l : List (ℚ × ℚ)) (m : ℚ) : ℚ :=
  let mags := l.map Prod.fst
  let dists := l.map Prod.snd
  let ext :=
    if mags.getLastD 0 < 11 then (mags ++ [11], dists ++ [MAX_DISTANCE])
    else (mags, dists)
  Piecewise.call ⟨ext.1, ext.2⟩ m

/-- The method `IntegrationDistance.__call__(trt, mag)`: resolve the TRT through
`getdefault` (a missing key surfaces here, as a `KeyError`), return scalar
values unconditionally, return `MAX_DISTANCE` for a magnitude-less query on a
pairs value, and otherwise evaluate the (cached) piecewise function.  The
per-TRT cache is write-once with the same value, so it is semantically
transparent and not modelled. -/
def IntegrationDistance.call (idist : IntegrationDistance) (trt : String)
    (mag : Option ℚ) : Except PyErr ℚ :=
  match getdefault idist.dic trt with
  | .error e => .error e
  | .ok (.scalar d) => .ok d
  | .ok (.pairs l) =>
    match mag with
    | none => .ok MAX_DISTANCE
    | some m => .ok (magdistLookup l m)

/-! ### Sites, sources and `SourceFilter`
(openquake/hazardlib/calc/filters.py, lines 246-364) -/

/-- A geographic bounding box `(min_lon, min_lat, max_lon, max_lat)`. -/
structure Box where
  minLon : ℚ
  minLat : ℚ
  maxLon : ℚ
  maxLat : ℚ
deriving DecidableEq

/-- A site: a stable integer id and a longitude/latitude point. -/
structure Site where
  sid : ℕ
  lon : ℚ
  lat : ℚ
deriving DecidableEq

/-- Modelled from the spec: `SiteCollection` is defined in
`openquake.hazardlib.site`, outside this repository's sources.  Per the spec
it is an ordered, index-addressable set of sites; `completeLen` is the length
of its own complete collection (`len(sitecol.complete)`), and the collection
is complete when its length equals `completeLen`. -/
structure SiteCollection where
  sites : List Site
  completeLen : ℕ
deriving DecidableEq

/-- Modelled from the spec: `SiteCollection.filtered(indices)` is defined in
`openquake.hazardlib.site`, outside this repository's sources.  Per the spec
(sections 3 and 4.2) it restricts the collection to the sites whose ids lie
in the given index set, preserving order. -/
def SiteCollection.filtered (sc : SiteCollection) (idxs : List ℕ) : List Site :=
  sc.sites.filter fun s => idxs.contains s.sid

/-- Whether a site's point lies inside a bounding box. -/
def inBox (b : Box) (s : Site) : Prop :=
  b.minLon ≤ s.lon ∧ s.lon ≤ b.maxLon ∧ b.minLat ≤ s.lat ∧ s.lat ≤ b.maxLat

instance (b : Box) (s : Site) : Decidable (inBox b s) := by
  unfold inBox; infer_instance

/-- Helper for `withinBox`: the positions (counting from `i`) of the sites
inside the box. -/
def withinAux (b : Box) : ℕ → List Site → List ℕ
  | _, [] => []
  | i, s :: rest =>
    if inBox b s then i :: withinAux b (i + 1) rest else withinAux b (i + 1) rest

/-- Modelled from the spec: `within(bbox, index)` is defined in
`openquake.hazardlib.geo.utils`, outside this repository's sources.  The
rtree index holds one point entry per site, keyed by its position in the
collection; `within` returns the keys of the entries inside the box. -/
def withinBox (b : Box) (sites : List Site) : List ℕ := withinAux b 0 sites

/-- Modelled from the spec: `fix_lon` is defined in
`openquake.hazardlib.geo.utils`, outside this repository's sources; it
normalizes a longitude to the interval [0, 360). -/
def fixLon (l : ℚ) : ℚ := l - 360 * ⌊l / 360⌋

/-- A rupture, as consumed by `gen_ruptures`.  The field `near` models
`filters.filter_sites_by_distance_to_rupture(rupture, maximum_distance,
s_sites)`, which is referenced but not defined in this snapshot's sources:
per the spec (section 4.3) it keeps only the sites within the integration
distance of this specific rupture and returns `None` when none remain. -/
structure Rupture where
  rid : ℕ
  near : ℚ → List Site → Option (List Site)

/-- A seismic source, as consumed by the filters.  `maxMag` models
`src.get_min_max_mag()[1]`; `boxOf` models
`openquake.hazardlib.geo.utils.get_bounding_box(src, maxdist)` (external
geometry); `indices` is the mutable per-source cache of filtered site
indices; `filterSites` models the external, fallible method
`src.filter_sites_by_distance_to_source(maximum_distance, site_coll)`
(`None` meaning no site in range); `ruptures` models `src.iter_ruptures()`. -/
structure Source where
  source_id : String
  tectonic_region_type : String
  maxMag : ℚ
  boxOf : ℚ → Box
  indices : Option (List ℕ)
  filterSites : ℚ → SiteCollection → Except PyErr (Option (List Site))
  ruptures : List Rupture

/-- The prefilter strategy of a `SourceFilter`. -/
inductive Prefilter where
  | rtree
  | numpyStrategy
  | no
deriving DecidableEq

/-- The `SourceFilter`: a site collection (possibly `None`), an
`IntegrationDistance` and a prefilter strategy.  The rtree index itself is
determined by `sitecol`, so it is not a separate field. -/
structure SourceFilter where
  sitecol : Option SiteCollection
  integration_distance : IntegrationDistance
  prefilter : Prefilter

/-- The constructor `SourceFilter.__init__(sitecol, integration_distance, prefilter)`:
raise `ValueError` when the site collection is not complete; force the
prefilter to `no` when the distance table is empty (falsy) or the site
collection is `None`. -/
def SourceFilter.init (sitecol : Option SiteCollection)
    (idist : List (String × MagDist)) (pre : Prefilter) :
    Except PyErr SourceFilter :=
  match sitecol with
  | some sc =>
    if sc.sites.length < sc.completeLen then
      .error ⟨"ValueError", "the site collection is not complete!"⟩
    else
      .ok ⟨some sc, ⟨idist⟩, if idist.isEmpty then .no else pre⟩
  | none => .ok ⟨none, ⟨idist⟩, .no⟩

/-- The module-level `source_site_noop_filter = SourceFilter(None, {})`. -/
def source_site_noop_filter : SourceFilter :=
  ⟨none, ⟨[]⟩, .no⟩

/-- The method `SourceFilter.get_affected_box(src)`: the integration distance at the
source's TRT and maximum magnitude, turned into an enlarged bounding box with
the longitudes normalized. -/
def SourceFilter.get_affected_box (f : SourceFilter) (src : Source) :
    Except PyErr Box :=
  match f.integration_distance.call src.tectonic_region_type (some src.maxMag) with
  | .error e => .error e
  | .ok d =>
    let b := src.boxOf d
    .ok ⟨fixLon b.minLon, b.minLat, fixLon b.maxLon, b.maxLat⟩

/-- One iteration of the loop of `SourceFilter.__call__(sources, sites)`:
returns the (possibly cache-updated) source together with the site subset
yielded for it, if any.  A source already carrying `indices` is served from
the cache; otherwise the configured strategy runs: `no` passes the full
site set through, `rtree` queries the index built over `self.sitecol`,
`numpy` uses `sites.within_bbox` (external, modelled from the spec as the
direct bounding-box containment test, `None` when empty) and caches
`get_indices(s_sites)`, the ids of the surviving sites. -/
def SourceFilter.step (f : SourceFilter) (sites : SiteCollection) (src : Source) :
    Except PyErr (Source × Option (List Site)) :=
  match src.indices with
  | some idxs => .ok (src, some (sites.filtered idxs))
  | none =>
    match f.prefilter with
    | .no => .ok (src, some sites.sites)
    | .rtree =>
      match f.get_affected_box src with
      | .error e => .error e
      | .ok box =>
        let idxs := withinBox box ((f.sitecol.map SiteCollection.sites).getD [])
        if idxs.isEmpty then .ok (src, none)
        else .ok ({ src with indices := some idxs }, some (sites.filtered idxs))
    | .numpyStrategy =>
      match f.get_affected_box src with
      | .error e => .error e
      | .ok box =>
        let s_sites := sites.sites.filter fun s => decide (inBox box s)
        if s_sites.isEmpty then .ok (src, none)
        else .ok ({ src with indices := some (s_sites.map Site.sid) }, some s_sites)

/-- The method `SourceFilter.__call__(sources, sites)` over a whole source list: the
lazily yielded `(source, site-subset)` pairs, in order. -/
def SourceFilter.callList (f : SourceFilter) (sources : List Source)
    (sites : SiteCollection) : Except PyErr (List (Source × List Site)) :=
  match sources with
  | [] => .ok []
  | src :: rest =>
    match f.step sites src with
    | .error e => .error e
    | .ok (src', y) =>
      match f.callList rest sites with
      | .error e => .error e
      | .ok pairs =>
        .ok ((match y with | some ys => [(src', ys)] | none => []) ++ pairs)

/-! ### `context` (filters.py, 72-89) and `gen_ruptures` (calc.py, 55-87) -/

/-- The message rewriting performed by `context`:
the message becomes the format `An error occurred with source id=<sid>. Error: <msg>`,
re-raised with the original exception type. -/
def PyErr.annotated (sid : String) (e : PyErr) : PyErr :=
  ⟨e.kind, "An error occurred with source id=" ++ sid ++ ". Error: " ++ e.msg⟩

/-- The `context(src)` context manager: pass successes through, and re-raise
an exception with the source id annotated into the message, preserving the
exception type. -/
def context (src : Source) (op : Except PyErr α) : Except PyErr α :=
  match op with
  | .ok a => .ok a
  | .error e => .error (e.annotated src.source_id)

/-- The triples yielded by `gen_ruptures`. -/
structure SourceRuptureSites where
  source : Source
  rupture : Rupture
  sites : List Site

/-- The generator `gen_ruptures(sources, site_coll, maximum_distance, monitor)`: for each
source, filter the sites by distance to the source (skipping the source on
`None`), enumerate its ruptures (skipping the source when there are none),
filter each rupture's sites (skipping far-away ruptures), and yield the
`(source, rupture, sites)` triples.  The monitors only measure time and are
not modelled.  Note that the body performs no exception handling: a failure
inside the source filter propagates as is. -/
def gen_ruptures (sources : List Source) (site_coll : SiteCollection)
    (maximum_distance : ℚ) : Except PyErr (List SourceRuptureSites) :=
  match sources with
  | [] => .ok []
  | src :: rest =>
    match src.filterSites maximum_distance site_coll with
    | .error e => .error e
    | .ok none => gen_ruptures rest site_coll maximum_distance
    | .ok (some s_sites) =>
      let triples :=
        if src.ruptures.isEmpty then []
        else src.ruptures.filterMap fun r =>
          (r.near maximum_distance s_sites).map fun rs => ⟨src, r, rs⟩
      (gen_ruptures rest site_coll maximum_distance).map fun more => triples ++ more

/-! ### Concrete fixtures used by the witness and counterexample theorems -/

/-- The control points of the `IntegrationDistance` doctest. -/
def mdPairs6 : List (ℚ × ℚ) :=
  [(3, 30), (4, 40), (5, 100), (6, 200), (7, 300), (8, 400)]

/-- The magnitude-dependent table of the `IntegrationDistance` doctest. -/
def mdTable6 : List (String × MagDist) :=
  [("default", MagDist.pairs mdPairs6)]

/-- A scalar integration-distance table. -/
def scalarTable : List (String × MagDist) :=
  [("default", MagDist.scalar 100)]

/-- A concrete site. -/
def siteA : Site := ⟨0, 1, 1⟩

/-- Another concrete site. -/
def siteB : Site := ⟨1, 2, 2⟩

/-- A complete two-site collection. -/
def scAB : SiteCollection := ⟨[siteA, siteB], 2⟩

/-- An rtree-strategy filter over `scAB` with the scalar table. -/
def rtreeFilterAB : SourceFilter := ⟨some scAB, ⟨scalarTable⟩, .rtree⟩

/-- A source whose bounding box covers both sites of `scAB`. -/
def srcCover : Source :=
  ⟨"cov", "TRT_X", 5, fun _ => ⟨0, 0, 10, 10⟩, none, fun _ _ => .ok none, []⟩

/-- A source whose bounding box covers no site of `scAB`. -/
def srcFar : Source :=
  ⟨"far", "TRT_X", 5, fun _ => ⟨100, 100, 110, 110⟩, none, fun _ _ => .ok none, []⟩

/-- A source already carrying a cached index set. -/
def srcCached : Source :=
  ⟨"cached", "TRT_X", 5, fun _ => ⟨0, 0, 10, 10⟩, some [1], fun _ _ => .ok none, []⟩

/-- A source whose site filtering raises `ValueError: boom`. -/
def badSource : Source :=
  ⟨"42", "TRT_X", 5, fun _ => ⟨0, 0, 0, 0⟩, none,
    fun _ _ => .error ⟨"ValueError", "boom"⟩, []⟩

/-! ## Auxiliary lemmas -/

theorem countLT_cons (v a : ℚ) (l : List ℚ) :
    countLT v (a :: l) = (if a < v then 1 else 0) + countLT v l := rfl

theorem countLT_le_length (v : ℚ) (l : List ℚ) : countLT v l ≤ l.length := by
  induction l with
  | nil => simp [countLT]
  | cons a l ih => simp only [countLT, List.length_cons]; split <;> omega

theorem countLT_mono {v w : ℚ} (hvw : v ≤ w) (l : List ℚ) :
    countLT v l ≤ countLT w l := by
  induction l with
  | nil => exact le_refl _
  | cons a l ih =>
    simp only [countLT]
    by_cases h : a < v
    · rw [if_pos h, if_pos (h.trans_le hvw)]; omega
    · rw [if_neg h]; split <;> omega

theorem countLT_eq_zero (v : ℚ) (l : List ℚ) (h : ∀ x ∈ l, ¬ x < v) :
    countLT v l = 0 := by
  induction l with
  | nil => rfl
  | cons a l ih =>
    simp only [countLT]
    rw [if_neg (h a (List.mem_cons_self a l)), ih fun x hx => h x (List.mem_cons_of_mem a hx)]

theorem countLT_eq_length (v : ℚ) (l : List ℚ) (h : ∀ x ∈ l, x < v) :
    countLT v l = l.length := by
  induction l with
  | nil => rfl
  | cons a l ih =>
    simp only [countLT, List.length_cons]
    rw [if_pos (h a (List.mem_cons_self a l)), ih fun x hx => h x (List.mem_cons_of_mem a hx)]
    omega

theorem countLT_lt_length (v : ℚ) (l : List ℚ) {x : ℚ} (hx : x ∈ l) (hxv : ¬ x < v) :
    countLT v l < l.length := by
  induction l with
  | nil => cases hx
  | cons a l ih =>
    simp only [countLT, List.length_cons]
    rcases List.mem_cons.mp hx with rfl | hx'
    · rw [if_neg hxv]; have := countLT_le_length v l; omega
    · have := ih hx'; split <;> omega

theorem countLT_append (v : ℚ) (l₁ l₂ : List ℚ) :
    countLT v (l₁ ++ l₂) = countLT v l₁ + countLT v l₂ := by
  induction l₁ with
  | nil => simp [countLT]
  | cons a l ih =>
    simp only [List.cons_append, countLT, List.append_eq]
    rw [ih]
    omega

theorem chain'_lt_head_le {a : ℚ} {l : List ℚ} (h : (a :: l).Chain' (· < ·)) :
    ∀ x ∈ a :: l, a ≤ x := by
  have hp : (a :: l).Pairwise (· < ·) := List.chain'_iff_pairwise.mp h
  intro x hx
  rcases List.mem_cons.mp hx with rfl | hx'
  · exact le_refl x
  · exact ((List.pairwise_cons.mp hp).1 x hx').le

theorem chain'_lt_le_getLastD {l : List ℚ} (h : l.Chain' (· < ·)) :
    ∀ x ∈ l, x ≤ l.getLastD 0 := by
  induction l with
  | nil => intro x hx; cases hx
  | cons a l ih =>
    intro x hx
    cases l with
    | nil => simp at hx; simp [hx]
    | cons b l' =>
      have hab : a < b := (List.chain'_cons.mp h).1
      have h' : (b :: l').Chain' (· < ·) := (List.chain'_cons.mp h).2
      have hlast : (a :: b :: l').getLastD 0 = (b :: l').getLastD 0 := by simp
      rw [hlast]
      rcases List.mem_cons.mp hx with rfl | hx'
      · exact (hab.le).trans (ih h' b (List.mem_cons_self b l'))
      · exact ih h' x hx'

theorem getLastD_mem {α : Type _} [Inhabited α] (l : List α) (h : l ≠ []) (d : α) :
    l.getLastD d ∈ l := by
  induction l with
  | nil => exact absurd rfl h
  | cons a l ih =>
    cases l with
    | nil => simp
    | cons b l' =>
      have : (a :: b :: l').getLastD d = (b :: l').getLastD d := by simp
      rw [this]
      exact List.mem_cons_of_mem a (ih (by simp) )

theorem chain'_le_getD_mono {ys : List ℚ} (h : ys.Chain' (· ≤ ·)) {i j : ℕ}
    (hij : i ≤ j) (hj : j < ys.length) : ys.getD i 0 ≤ ys.getD j 0 := by
  have hp : ys.Pairwise (· ≤ ·) := List.chain'_iff_pairwise.mp h
  rcases eq_or_lt_of_le hij with rfl | hlt
  · exact le_refl _
  · have hi : i < ys.length := hlt.trans hj
    rw [List.getD_eq_getElem?_getD, List.getElem?_eq_getElem hi, Option.getD_some,
      List.getD_eq_getElem?_getD, List.getElem?_eq_getElem hj, Option.getD_some]
    have := List.pairwise_iff_get.mp hp ⟨i, hi⟩ ⟨j, hj⟩ hlt
    simpa [List.get_eq_getElem] using this

theorem segIdx_ceil (v : ℚ) (l : List ℚ) :
    ∀ (a : ℚ) (i : ℕ), (a :: l).Chain' (· < ·) → a ≤ v →
      v ≤ (a :: l).getLastD 0 →
      Int.ceil (segIdx v i (a :: l)) = ((i + countLT v (a :: l) : ℕ) : ℤ) := by
  induction l with
  | nil =>
    intro a i _ hav hvl
    have hna : ¬ a < v := by
      simp only [List.getLastD_eq_getLast?, List.getLast?_singleton, Option.getD_some] at hvl
      exact not_lt.mpr hvl
    simp [segIdx, countLT, hna, Int.ceil_natCast]
  | cons b l ih =>
    intro a i hch hav hvl
    have hab : a < b := (List.chain'_cons.mp hch).1
    have hch' : (b :: l).Chain' (· < ·) := (List.chain'_cons.mp hch).2
    have hvl' : v ≤ (b :: l).getLastD 0 := by
      simpa only [List.getLastD_eq_getLast?, List.getLast?_cons_cons] using hvl
    by_cases hvb : v ≤ b
    · rw [show segIdx v i (a :: b :: l) = (i : ℚ) + (v - a) / (b - a) by
        simp [segIdx, hvb]]
      have hnb : ∀ x ∈ b :: l, ¬ x < v := fun x hx =>
        not_lt.mpr (hvb.trans (chain'_lt_head_le hch' x hx))
      by_cases hva : a < v
      · have hfrac : Int.ceil ((v - a) / (b - a)) = 1 := by
          rw [Int.ceil_eq_iff]
          constructor
          · push_cast
            have : (0 : ℚ) < (v - a) / (b - a) := div_pos (by linarith) (by linarith)
            linarith
          · push_cast
            exact (div_le_one (by linarith)).mpr (by linarith)
        have : ((i : ℚ)) = ((i : ℤ) : ℚ) := by push_cast; ring
        rw [this, add_comm, Int.ceil_add_int, hfrac]
        rw [countLT_cons, if_pos hva, countLT_eq_zero v (b :: l) hnb]
        push_cast; ring
      · have hva' : v = a := le_antisymm (not_lt.mp hva) hav
        subst hva'
        rw [show (i : ℚ) + (v - v) / (b - v) = ((i : ℤ) : ℚ) by push_cast; ring]
        rw [Int.ceil_intCast]
        rw [countLT_cons, if_neg (lt_irrefl v), countLT_eq_zero v (b :: l) hnb]
        simp
    · push_neg at hvb
      rw [show segIdx v i (a :: b :: l) = segIdx v (i + 1) (b :: l) by
        simp [segIdx, not_le.mpr hvb]]
      rw [ih b (i + 1) hch' hvb.le hvl']
      have hc : countLT v (a :: b :: l) = 1 + countLT v (b :: l) := by
        rw [countLT_cons v a, if_pos (hab.trans hvb)]
      rw [hc]
      push_cast; ring

theorem piecewise_call_eq (xs ys : List ℚ) (hne : xs ≠ [])
    (hch : xs.Chain' (· < ·)) (v : ℚ) :
    Piecewise.call ⟨xs, ys⟩ v = ys.getD (min (countLT v xs) (xs.length - 1)) 0 := by
  obtain ⟨a, l, rfl⟩ := List.exists_cons_of_ne_nil hne
  unfold Piecewise.call interp1dIdx
  simp only [List.headD_cons]
  by_cases h1 : v < a
  · rw [if_pos h1]
    have hz : countLT v (a :: l) = 0 :=
      countLT_eq_zero v _ fun x hx =>
        not_lt.mpr (h1.trans_le (chain'_lt_head_le hch x hx)).le
    simp [hz]
  · rw [if_neg h1]
    by_cases h2 : (a :: l).getLastD 0 < v
    · rw [if_pos h2]
      have hlen : (((a :: l).length : ℚ)) - 1 = ((l.length : ℤ) : ℚ) := by
        push_cast [List.length_cons]; ring
      rw [hlen, Int.ceil_intCast]
      have hcount : countLT v (a :: l) = (a :: l).length :=
        countLT_eq_length v _ fun x hx =>
          (chain'_lt_le_getLastD hch x hx).trans_lt h2
      rw [hcount]
      simp only [List.length_cons]
      rw [min_eq_right (by omega)]
      simp
    · rw [if_neg h2]
      have hav : a ≤ v := not_lt.mp h1
      have hvl : v ≤ (a :: l).getLastD 0 := not_lt.mp h2
      rw [segIdx_ceil v l a 0 hch hav hvl]
      have hlt : countLT v (a :: l) < (a :: l).length :=
        countLT_lt_length v _ (getLastD_mem (a :: l) (by simp) 0) h2
      simp only [List.length_cons] at hlt ⊢
      rw [min_eq_left (by omega)]
      simp

theorem getdefault_singleton {α : Type _} (v : α) (key : String) :
    getdefault [("default", v)] key = .ok v := by
  unfold getdefault
  cases h : key == "default" <;> simp [List.lookup, h]

theorem chain'_lt_concat_11 {l : List ℚ} (hch : l.Chain' (· < ·))
    (h11 : l.getLastD 0 < 11) : (l ++ [11]).Chain' (· < ·) := by
  apply List.chain'_append.mpr
  refine ⟨hch, List.chain'_singleton _, ?_⟩
  intro x hx y hy
  simp only [List.head?_cons, Option.mem_def, Option.some.injEq] at hy
  subst hy
  rw [Option.mem_def] at hx
  have hx' : l.getLastD 0 = x := by
    rw [List.getLastD_eq_getLast?, hx, Option.getD_some]
  rw [← hx']
  exact h11

theorem chain'_le_concat_2000 {l : List ℚ} (hch : l.Chain' (· ≤ ·))
    (h2000 : l.getLastD 0 ≤ 2000) : (l ++ [2000]).Chain' (· ≤ ·) := by
  apply List.chain'_append.mpr
  refine ⟨hch, List.chain'_singleton _, ?_⟩
  intro x hx y hy
  simp only [List.head?_cons, Option.mem_def, Option.some.injEq] at hy
  subst hy
  rw [Option.mem_def] at hx
  have hx' : l.getLastD 0 = x := by
    rw [List.getLastD_eq_getLast?, hx, Option.getD_some]
  rw [← hx']
  exact h2000

theorem magdistLookup_eq (l : List (ℚ × ℚ))
    (hch : (l.map Prod.fst).Chain' (· < ·))
    (h11 : (l.map Prod.fst).getLastD 0 < 11) (m : ℚ) :
    magdistLookup l m
      = (l.map Prod.snd ++ [MAX_DISTANCE]).getD
          (min (countLT m (l.map Prod.fst ++ [11])) l.length) 0 := by
  simp only [magdistLookup]
  rw [if_pos h11]
  rw [piecewise_call_eq (l.map Prod.fst ++ [11]) (l.map Prod.snd ++ [MAX_DISTANCE])
    (by simp) (chain'_lt_concat_11 hch h11) m]
  have hlen : (l.map Prod.fst ++ [11]).length - 1 = l.length := by
    simp
  rw [hlen]

/-! ## Claim theorems -/

/-- C3: with the table `{'default': [(3,30),(4,40),(5,100),(6,200),(7,300),
(8,400)]}` and any tectonic region type, the distance lookup returns 30 at
magnitude 2.5, 30 at magnitude 3, 40 at magnitude 3.1, 400 at magnitude 8
and 2000 at magnitude 8.5 (through the synthetic point at magnitude 11). -/
theorem integration_distance_doctest (trt : String) :
    (IntegrationDistance.init mdTable6).call trt (some (5/2)) = .ok 30
    ∧ (IntegrationDistance.init mdTable6).call trt (some 3) = .ok 30
    ∧ (IntegrationDistance.init mdTable6).call trt (some (31/10)) = .ok 40
    ∧ (IntegrationDistance.init mdTable6).call trt (some 8) = .ok 400
    ∧ (IntegrationDistance.init mdTable6).call trt (some (17/2)) = .ok 2000 := by
  have hget : getdefault mdTable6 trt = .ok (MagDist.pairs mdPairs6) :=
    getdefault_singleton _ trt
  have hch : (mdPairs6.map Prod.fst).Chain' (· < ·) := by
    norm_num [mdPairs6, List.chain'_cons, List.chain'_singleton]
  have h11 : (mdPairs6.map Prod.fst).getLastD 0 < 11 := by
    norm_num [mdPairs6]
  have hcall : ∀ m : ℚ, (IntegrationDistance.init mdTable6).call trt (some m)
      = .ok (magdistLookup mdPairs6 m) := fun m => by
    simp only [IntegrationDistance.init, IntegrationDistance.call, hget]
  refine ⟨?_, ?_, ?_, ?_, ?_⟩ <;>
    rw [hcall, magdistLookup_eq mdPairs6 hch h11] <;>
    norm_num [mdPairs6, countLT, MAX_DISTANCE]

/-- C6 (counterexample): constructing an `IntegrationDistance` from the
malformed table `{TRT_A: 50}` — missing the queried TRT `X` and the `default`
key — succeeds, because `__init__` performs no validation; the `KeyError`
only surfaces at the first distance lookup for the missing key.  This refutes
the claim that the error is raised at construction time. -/
theorem integration_distance_missing_key_cex :
    IntegrationDistance.init [("TRT_A", MagDist.scalar 50)]
        = ⟨[("TRT_A", MagDist.scalar 50)]⟩
    ∧ (IntegrationDistance.init [("TRT_A", MagDist.scalar 50)]).call "X" (some 5)
        = .error ⟨"KeyError", "default"⟩ := by
  exact ⟨rfl, rfl⟩

/-- C6 (amended): constructing an `IntegrationDistance` from a table missing
a queried TRT and the `default` key succeeds — the constructor stores the
table unchanged and cannot raise — and the fatal `KeyError` is raised later,
at the first distance lookup for the missing key. -/
theorem integration_distance_missing_key_lookup_error
    (dic : List (String × MagDist)) (trt : String) (mag : Option ℚ)
    (htrt : dic.lookup trt = none) (hdef : dic.lookup "default" = none) :
    IntegrationDistance.init dic = ⟨dic⟩
    ∧ (IntegrationDistance.init dic).call trt mag = .error ⟨"KeyError", "default"⟩ := by
  refine ⟨rfl, ?_⟩
  simp only [IntegrationDistance.init, IntegrationDistance.call, getdefault, htrt, hdef]

/-- Witness for the amended C6, at the concrete table `{TRT_B: 50}` and the
concrete query `(Y, 6)`. -/
theorem integration_distance_missing_key_lookup_error_witness :
    IntegrationDistance.init [("TRT_B", MagDist.scalar 50)]
        = ⟨[("TRT_B", MagDist.scalar 50)]⟩
    ∧ (IntegrationDistance.init [("TRT_B", MagDist.scalar 50)]).call "Y" (some 6)
        = .error ⟨"KeyError", "default"⟩ :=
  integration_distance_missing_key_lookup_error _ "Y" (some 6) rfl rfl

/-- C8 (counterexample): the control points `[(11,40),(12,50)]` have strictly
ascending magnitudes and non-decreasing distances, yet the lookup at
magnitude 13 — strictly above the last control point — returns 50, not the
2000 km ceiling: the synthetic ceiling point is only appended when the last
control magnitude is below 11. -/
theorem magdist_above_11_cex :
    (IntegrationDistance.init [("default", MagDist.pairs [(11, 40), (12, 50)])]).call
        "X" (some 13) = .ok 50
    ∧ (50 : ℚ) ≠ 2000 := by
  have hget : getdefault [("default", MagDist.pairs [((11 : ℚ), (40 : ℚ)), (12, 50)])] "X"
      = .ok (MagDist.pairs [((11 : ℚ), (40 : ℚ)), (12, 50)]) :=
    getdefault_singleton _ "X"
  constructor
  · simp only [IntegrationDistance.init, IntegrationDistance.call, hget]
    simp only [magdistLookup]
    rw [if_neg (by norm_num)]
    rw [piecewise_call_eq _ _ (by simp) (by norm_num [List.chain'_cons]) 13]
    norm_num [countLT]
  · norm_num

/-- C8 (amended): for control points with strictly ascending magnitudes and
non-decreasing distances, *provided additionally* that the last control
magnitude is below 11 (so that the synthetic point `(11, 2000)` is appended)
and the last control distance is at most 2000, the distance lookup is
non-decreasing in the magnitude, every magnitude strictly above the last
control point maps to the 2000 km ceiling, and any `IntegrationDistance`
lookup resolving to these control points returns exactly this value. -/
theorem magdist_monotone_capped (l : List (ℚ × ℚ))
    (hch : (l.map Prod.fst).Chain' (· < ·))
    (hd : (l.map Prod.snd).Chain' (· ≤ ·))
    (h11 : (l.map Prod.fst).getLastD 0 < 11)
    (h2000 : (l.map Prod.snd).getLastD 0 ≤ 2000) :
    (∀ m1 m2 : ℚ, m1 ≤ m2 → magdistLookup l m1 ≤ magdistLookup l m2)
    ∧ (∀ m : ℚ, (l.map Prod.fst).getLastD 0 < m → magdistLookup l m = 2000)
    ∧ (∀ (idist : IntegrationDistance) (trt : String) (m : ℚ),
        getdefault idist.dic trt = .ok (.pairs l) →
        idist.call trt (some m) = .ok (magdistLookup l m)) := by
  have hmd : MAX_DISTANCE = (2000 : ℚ) := rfl
  have hys : (l.map Prod.snd ++ [MAX_DISTANCE]).Chain' (· ≤ ·) := by
    rw [hmd]; exact chain'_le_concat_2000 hd h2000
  have hylen : (l.map Prod.snd ++ [MAX_DISTANCE]).length = l.length + 1 := by simp
  refine ⟨?_, ?_, ?_⟩
  · intro m1 m2 h12
    rw [magdistLookup_eq l hch h11 m1, magdistLookup_eq l hch h11 m2]
    apply chain'_le_getD_mono hys
    · exact min_le_min (countLT_mono h12 _) (le_refl _)
    · rw [hylen]; exact Nat.lt_succ_of_le (min_le_right _ _)
  · intro m hm
    rw [magdistLookup_eq l hch h11 m]
    have hall : ∀ x ∈ l.map Prod.fst, x < m := fun x hx =>
      (chain'_lt_le_getLastD hch x hx).trans_lt hm
    have hcnt : l.length ≤ countLT m (l.map Prod.fst ++ [11]) := by
      rw [countLT_append, countLT_eq_length m _ hall, List.length_map]
      exact Nat.le_add_right _ _
    rw [min_eq_right hcnt, List.getD_eq_getElem?_getD,
      show l.length = (l.map Prod.snd).length by simp,
      List.getElem?_concat_length, Option.getD_some, hmd]
  · intro idist trt m hget
    simp only [IntegrationDistance.call, hget]

/-- Witness for the amended C8, at the doctest control points: monotonicity
between the magnitudes 3 and 8.5, and the ceiling above the last control
point at magnitude 9. -/
theorem magdist_monotone_capped_witness :
    (magdistLookup mdPairs6 3 ≤ magdistLookup mdPairs6 (17/2))
    ∧ magdistLookup mdPairs6 9 = 2000 := by
  have h := magdist_monotone_capped mdPairs6
    (by norm_num [mdPairs6, List.chain'_cons, List.chain'_singleton])
    (by norm_num [mdPairs6, List.chain'_cons, List.chain'_singleton])
    (by norm_num [mdPairs6])
    (by norm_num [mdPairs6])
  exact ⟨h.1 3 (17/2) (by norm_num), h.2.1 9 (by norm_num [mdPairs6])⟩

/-- C2: for every list of ground-motion values and intensity levels and
positive investigation time and duration, the exceedance curve assigns to
each intensity level the probability
`1 - exp(-(invest_time/duration) * count)` with `count` the number of
ground-motion values that meet or exceed the level; in particular
`_gmvs_to_haz_curve([0.04750576], [0.03,0.04,0.05], 1, 1)` is
`[1-e^-1, 1-e^-1, 0]`. -/
theorem gmvs_to_haz_curve_spec (gmvs imls : List ℝ) (t d : ℝ)
    (ht : 0 < t) (hd : 0 < d) :
    (∀ i, i < imls.length →
        (gmvs_to_haz_curve gmvs imls t d).getD i 0
          = 1 - Real.exp (-(t / d) * (countExceeding (imls.getD i 0) gmvs : ℝ)))
    ∧ gmvs_to_haz_curve [0.04750576] [0.03, 0.04, 0.05] 1 1
        = [1 - Real.exp (-1), 1 - Real.exp (-1), 0] := by
  constructor
  · intro i hi
    unfold gmvs_to_haz_curve
    rw [List.getD_eq_getElem?_getD,
      List.getElem?_eq_getElem (by simpa using hi), Option.getD_some, List.getElem_map,
      List.getD_eq_getElem?_getD imls, List.getElem?_eq_getElem hi, Option.getD_some]
  · unfold gmvs_to_haz_curve
    norm_num [countExceeding, Real.exp_zero]

/-- Witness for C2, at the concrete sample of the claim and unit times. -/
theorem gmvs_to_haz_curve_spec_witness :
    gmvs_to_haz_curve [0.04750576] [0.03, 0.04, 0.05] 1 1
      = [1 - Real.exp (-1), 1 - Real.exp (-1), 0] :=
  (gmvs_to_haz_curve_spec [0.04750576] [0.03, 0.04, 0.05] 1 1
    (by norm_num) (by norm_num)).2

theorem EPSILON_pos : (0 : ℝ) < EPSILON := by norm_num [EPSILON]

theorem curveCutoff_getLastD (a : ℝ) (c : List ℝ) :
    (curveCutoff (a :: c)).getLastD 0 = max a EPSILON := by
  unfold curveCutoff
  rw [List.map_reverse]
  simp

theorem foldr_max_le (B : ℝ) (l : List ℝ) (hB : 0 ≤ B) (h : ∀ x ∈ l, x ≤ B) :
    l.foldr max 0 ≤ B := by
  induction l with
  | nil => simpa using hB
  | cons x l ih =>
    simp only [List.foldr_cons]
    exact max_le (h x (List.mem_cons_self x l))
      (ih fun y hy => h y (List.mem_cons_of_mem x hy))

theorem maxClipped_head (a : ℝ) (c : List ℝ) (hmono : (a :: c).Pairwise (· ≥ ·)) :
    maxClipped (a :: c) = max a EPSILON := by
  unfold maxClipped
  simp only [List.map_cons, List.foldr_cons]
  apply max_eq_left
  apply foldr_max_le
  · exact le_trans EPSILON_pos.le (le_max_right a EPSILON)
  · intro x hx
    obtain ⟨y, hy, rfl⟩ := List.mem_map.mp hx
    exact max_le_max ((List.pairwise_cons.mp hmono).1 y hy) (le_refl EPSILON)

theorem hmapVal_eq_spec (c : List ℝ) (imls : List ℝ) (poe : ℝ)
    (hne : c ≠ []) (hmono : c.Pairwise (· ≥ ·)) :
    hmapVal (imls.reverse.map Real.log) c poe = specHmapVal c imls poe := by
  obtain ⟨a, c', rfl⟩ := List.exists_cons_of_ne_nil hne
  simp only [hmapVal, specHmapVal]
  rw [curveCutoff_getLastD, maxClipped_head a c' hmono]

/-- C1 (counterexample): for the all-zero curve `[0, 0]` over the levels
`[0.1, 0.2]`, the positive target probability `1e-31` does *not* map to 0:
`1e-31` does not exceed the clipped maximum `EPSILON = 1e-30`, so the code
interpolates and returns the largest level 0.2.  This refutes the clause
that for an all-zero curve every positive target maps to 0. -/
theorem hazard_map_zero_curve_cex :
    (0 : ℝ) < 1 / 10 ^ 31
    ∧ compute_hazard_maps [[0, 0]] [1/10, 2/10] [1/10 ^ 31] = [[2/10]]
    ∧ (2/10 : ℝ) ≠ 0 := by
  refine ⟨by norm_num, ?_, by norm_num⟩
  have hmax : max (0 : ℝ) EPSILON = EPSILON := max_eq_right EPSILON_pos.le
  simp only [compute_hazard_maps, hmapVal, curveCutoff, List.map_cons, List.map_nil,
    List.reverse_cons, List.reverse_nil, List.nil_append, List.cons_append,
    List.zip_cons_cons, List.zip_nil_right, hmax]
  rw [if_neg (by norm_num [EPSILON])]
  rw [show npInterp (Real.log (1/10 ^ 31))
        [(Real.log EPSILON, Real.log (2/10)), (Real.log EPSILON, Real.log (1/10))]
      = Real.log (2/10) by
    simp only [npInterp]
    rw [if_pos ((Real.log_le_log_iff (by norm_num) EPSILON_pos).mpr
      (by norm_num [EPSILON]))]]
  rw [Real.exp_log (by norm_num)]

/-- C1 (amended): for hazard curves — nonempty and non-increasing, as
produced for increasing intensity levels — `compute_hazard_maps` returns the
N x P matrix, in input curve order and input target order, whose entries are
exactly 0 when the target exceeds the curve's maximum clipped probability
and otherwise the exp of the linear interpolation of `log poe` through the
log-clipped-probability/log-level pairs; an all-zero curve maps every target
*strictly above the clipping floor 1e-30* to 0 (smaller positive targets are
interpolated instead); a single curve is promoted to a 1-row matrix. -/
theorem compute_hazard_maps_spec (curves : List (List ℝ)) (imls poes : List ℝ)
    (hne : ∀ c ∈ curves, c ≠ []) (hmono : ∀ c ∈ curves, c.Pairwise (· ≥ ·)) :
    (compute_hazard_maps curves imls poes).length = curves.length
    ∧ (∀ row ∈ compute_hazard_maps curves imls poes, row.length = poes.length)
    ∧ (∀ i j, i < curves.length → j < poes.length →
        ((compute_hazard_maps curves imls poes).getD i []).getD j 0
          = specHmapVal (curves.getD i []) imls (poes.getD j 0))
    ∧ (∀ c poe, c ≠ [] → (∀ x ∈ c, x = 0) → EPSILON < poe →
        specHmapVal c imls poe = 0)
    ∧ (∀ c, compute_hazard_maps1 c imls poes = [poes.map (hmapVal (imls.reverse.map Real.log) c)]) := by
  refine ⟨by simp [compute_hazard_maps], ?_, ?_, ?_, fun c => rfl⟩
  · intro row hrow
    simp only [compute_hazard_maps, List.mem_map] at hrow
    obtain ⟨c, _, rfl⟩ := hrow
    simp
  · intro i j hi hj
    have hi' : i < (compute_hazard_maps curves imls poes).length := by
      simpa [compute_hazard_maps] using hi
    simp only [compute_hazard_maps] at hi' ⊢
    have h1 : (curves.map
          (fun curve => poes.map (hmapVal (imls.reverse.map Real.log) curve))).getD i []
        = poes.map (hmapVal (imls.reverse.map Real.log) curves[i]) := by
      rw [List.getD_eq_getElem?_getD, List.getElem?_eq_getElem hi', Option.getD_some,
        List.getElem_map]
    rw [h1]
    have hj' : j < (poes.map (hmapVal (imls.reverse.map Real.log) curves[i])).length := by
      simpa using hj
    rw [List.getD_eq_getElem?_getD, List.getElem?_eq_getElem hj', Option.getD_some,
      List.getElem_map]
    have hmem : curves[i] ∈ curves := List.getElem_mem hi
    rw [hmapVal_eq_spec curves[i] imls _ (hne _ hmem) (hmono _ hmem)]
    rw [List.getD_eq_getElem?_getD curves, List.getElem?_eq_getElem hi, Option.getD_some,
      List.getD_eq_getElem?_getD poes, List.getElem?_eq_getElem hj, Option.getD_some]
  · intro c poe hc hzero hpoe
    obtain ⟨a, c', rfl⟩ := List.exists_cons_of_ne_nil hc
    have hmono' : (a :: c').Pairwise (· ≥ ·) :=
      List.pairwise_of_forall_mem_list fun x hx y hy => by
        rw [hzero x hx, hzero y hy]
    unfold specHmapVal
    rw [if_pos]
    rw [maxClipped_head a c' hmono', hzero a (List.mem_cons_self a c'),
      max_eq_right EPSILON_pos.le]
    exact hpoe

/-- Witness for the amended C1, at a concrete non-increasing curve: the
(0,0) entry of the interpolated map equals the specification value. -/
theorem compute_hazard_maps_spec_witness :
    ((compute_hazard_maps [[9/10, 1/2]] [1/10, 2/10] [3/4]).getD 0 []).getD 0 0
      = specHmapVal ([[(9:ℝ)/10, 1/2]].getD 0 []) [1/10, 2/10] ([(3:ℝ)/4].getD 0 0) :=
  (compute_hazard_maps_spec [[9/10, 1/2]] [1/10, 2/10] [3/4]
    (by simp) (by norm_num [List.pairwise_cons])).2.2.1 0 0 (by norm_num) (by norm_num)

theorem withinAux_nil_of_out (b : Box) (sites : List Site)
    (h : ∀ s ∈ sites, ¬ inBox b s) : ∀ i, withinAux b i sites = [] := by
  induction sites with
  | nil => intro i; rfl
  | cons s rest ih =>
    intro i
    simp only [withinAux]
    rw [if_neg (h s (List.mem_cons_self s rest))]
    exact ih (fun t ht => h t (List.mem_cons_of_mem s ht)) (i + 1)

theorem withinAux_all_in (b : Box) (sites : List Site)
    (h : ∀ s ∈ sites, inBox b s) : ∀ i, withinAux b i sites = List.range' i sites.length := by
  induction sites with
  | nil => intro i; rfl
  | cons s rest ih =>
    intro i
    simp only [withinAux, List.length_cons]
    rw [if_pos (h s (List.mem_cons_self s rest)),
      ih (fun t ht => h t (List.mem_cons_of_mem s ht)) (i + 1), List.range'_succ]

theorem filtered_range'_all (sc : SiteCollection)
    (hsids : ∀ i (h : i < sc.sites.length), (sc.sites.get ⟨i, h⟩).sid = i) :
    sc.filtered (List.range' 0 sc.sites.length) = sc.sites := by
  unfold SiteCollection.filtered
  apply List.filter_eq_self.mpr
  intro s hs
  obtain ⟨⟨i, hi⟩, rfl⟩ := List.mem_iff_get.mp hs
  rw [hsids i hi]
  have hmem : i ∈ List.range' 0 sc.sites.length :=
    List.mem_range'.mpr ⟨i, hi, by omega⟩
  exact List.elem_eq_true_of_mem hmem

theorem step_source_id (f : SourceFilter) (sites : SiteCollection)
    {src src' : Source} {y : Option (List Site)}
    (h : f.step sites src = .ok (src', y)) : src'.source_id = src.source_id := by
  unfold SourceFilter.step at h
  split at h
  · simp only [Except.ok.injEq, Prod.mk.injEq] at h
    obtain ⟨h1, -⟩ := h
    subst h1
    rfl
  · split at h
    · simp only [Except.ok.injEq, Prod.mk.injEq] at h
      obtain ⟨h1, -⟩ := h
      subst h1
      rfl
    · split at h
      · exact absurd h (by simp)
      · dsimp only at h
        split at h <;>
          (simp only [Except.ok.injEq, Prod.mk.injEq] at h
           obtain ⟨h1, -⟩ := h
           subst h1
           rfl)
    · split at h
      · exact absurd h (by simp)
      · dsimp only at h
        split at h <;>
          (simp only [Except.ok.injEq, Prod.mk.injEq] at h
           obtain ⟨h1, -⟩ := h
           subst h1
           rfl)

theorem callList_cons_err (f : SourceFilter) (sc : SiteCollection) (src : Source)
    (rest : List Source) (e : PyErr) (hstep : f.step sc src = .error e) :
    f.callList (src :: rest) sc = .error e := by
  simp only [SourceFilter.callList, hstep]

theorem callList_cons_ok_none (f : SourceFilter) (sc : SiteCollection) (src src' : Source)
    (rest : List Source) (hstep : f.step sc src = .ok (src', none)) :
    f.callList (src :: rest) sc = f.callList rest sc := by
  conv_lhs => unfold SourceFilter.callList
  rw [hstep]
  cases f.callList rest sc <;> rfl

theorem callList_cons_ok_some (f : SourceFilter) (sc : SiteCollection) (src src' : Source)
    (rest : List Source) (ys : List Site)
    (hstep : f.step sc src = .ok (src', some ys)) :
    f.callList (src :: rest) sc
      = (f.callList rest sc).map fun pairs => (src', ys) :: pairs := by
  conv_lhs => unfold SourceFilter.callList
  rw [hstep]
  cases f.callList rest sc <;> rfl

theorem callList_order (f : SourceFilter) (sc : SiteCollection) :
    ∀ (sources : List Source) (pairs : List (Source × List Site)),
      f.callList sources sc = .ok pairs →
      (pairs.map fun p => p.1.source_id).Sublist (sources.map Source.source_id) := by
  intro sources
  induction sources with
  | nil =>
    intro pairs h
    simp only [SourceFilter.callList, Except.ok.injEq] at h
    subst h
    simp
  | cons src rest ih =>
    intro pairs h
    cases hstep : f.step sc src with
    | error e =>
      rw [callList_cons_err f sc src rest e hstep] at h
      exact absurd h (by simp)
    | ok r =>
      obtain ⟨src', y⟩ := r
      have hid : src'.source_id = src.source_id := step_source_id f sc hstep
      cases y with
      | none =>
        rw [callList_cons_ok_none f sc src src' rest hstep] at h
        simp only [List.map_cons]
        exact (ih pairs h).cons _
      | some ys =>
        rw [callList_cons_ok_some f sc src src' rest ys hstep] at h
        cases hrest : f.callList rest sc with
        | error e =>
          rw [hrest] at h
          exact absurd h (by simp [Except.map])
        | ok pairs' =>
          rw [hrest] at h
          simp only [Except.map, Except.ok.injEq] at h
          subst h
          simp only [List.map_cons, hid]
          exact (ih pairs' hrest).cons₂ _

theorem filtered_filter_map_sid (sc : SiteCollection)
    (hsid : (sc.sites.map Site.sid).Nodup) (p : Site → Bool) :
    sc.filtered ((sc.sites.filter p).map Site.sid) = sc.sites.filter p := by
  unfold SiteCollection.filtered
  apply List.filter_congr
  intro s hs
  by_cases hp : p s
  · rw [hp]
    exact List.elem_eq_true_of_mem
      (List.mem_map_of_mem Site.sid (List.mem_filter.mpr ⟨hs, hp⟩))
  · rw [Bool.eq_false_iff.mpr hp]
    rw [Bool.eq_false_iff]
    intro hcontains
    have hmem : s.sid ∈ (sc.sites.filter p).map Site.sid := List.elem_iff.mp hcontains
    obtain ⟨t, ht, hts⟩ := List.mem_map.mp hmem
    have hteq : t = s :=
      List.inj_on_of_nodup_map hsid (List.mem_of_mem_filter ht) hs hts
    exact hp (hteq ▸ List.of_mem_filter ht)

theorem fixLon_of_lt (l : ℚ) (h0 : 0 ≤ l) (h1 : l < 360) : fixLon l = l := by
  unfold fixLon
  have hfl : ⌊l / 360⌋ = 0 := by
    rw [Int.floor_eq_zero_iff]
    constructor
    · positivity
    · rw [div_lt_one (by norm_num)]
      exact h1
  rw [hfl]
  ring

/-- C9: constructing a `SourceFilter` with a site collection that is not
complete — strictly shorter than its own complete collection — raises a
`ValueError` at construction time; with a complete collection the
construction succeeds. -/
theorem source_filter_init_complete_check (sc : SiteCollection)
    (idist : List (String × MagDist)) (pre : Prefilter) :
    (sc.sites.length < sc.completeLen →
      SourceFilter.init (some sc) idist pre
        = .error ⟨"ValueError", "the site collection is not complete!"⟩)
    ∧ (¬ sc.sites.length < sc.completeLen →
      SourceFilter.init (some sc) idist pre
        = .ok ⟨some sc, ⟨idist⟩, if idist.isEmpty then .no else pre⟩) := by
  constructor
  · intro h
    simp [SourceFilter.init, h]
  · intro h
    simp [SourceFilter.init, h]

/-- Witness for C9: an incomplete collection (0 of 1 sites) errors; the
complete two-site collection constructs. -/
theorem source_filter_init_complete_check_witness :
    SourceFilter.init (some ⟨[], 1⟩) scalarTable .rtree
      = .error ⟨"ValueError", "the site collection is not complete!"⟩
    ∧ SourceFilter.init (some scAB) scalarTable .rtree
      = .ok ⟨some scAB, ⟨scalarTable⟩, .rtree⟩ := by
  constructor
  · exact (source_filter_init_complete_check ⟨[], 1⟩ scalarTable .rtree).1 (by norm_num)
  · have h := (source_filter_init_complete_check scAB scalarTable .rtree).2
      (by norm_num [scAB])
    simpa [scalarTable] using h

/-- C10: a source already carrying a cached index set is yielded with the
sites restricted to the cached ids before the strategy is consulted — by
every filter, whatever its strategy, including the module-level no-op filter
(whose strategy is `no`) — and is therefore never dropped and never passed
through with the full site set in place of the cached restriction. -/
theorem cached_indices_short_circuit (f : SourceFilter) (sites : SiteCollection)
    (src : Source) (idxs : List ℕ) (h : src.indices = some idxs) :
    f.step sites src = .ok (src, some (sites.filtered idxs))
    ∧ source_site_noop_filter.step sites src = .ok (src, some (sites.filtered idxs))
    ∧ source_site_noop_filter.prefilter = .no
    ∧ SourceFilter.init none [] .rtree = .ok source_site_noop_filter := by
  refine ⟨?_, ?_, rfl, rfl⟩ <;> simp [SourceFilter.step, h]

/-- Witness for C10: a source with cached ids `[1]` is served from the cache
both by the rtree filter and by the no-op filter. -/
theorem cached_indices_short_circuit_witness :
    rtreeFilterAB.step scAB srcCached = .ok (srcCached, some (scAB.filtered [1]))
    ∧ source_site_noop_filter.step scAB srcCached
        = .ok (srcCached, some (scAB.filtered [1]))
    ∧ source_site_noop_filter.prefilter = .no
    ∧ SourceFilter.init none [] .rtree = .ok source_site_noop_filter :=
  cached_indices_short_circuit rtreeFilterAB scAB srcCached [1] rfl

/-- C4: with the rtree strategy, a source whose affected bounding box
contains none of the sites is silently dropped (no pair, no error); a source
whose box contains every site of the (complete, nonempty) collection yields
the full site list; and the yielded pairs preserve the input source order
(their source ids form a sublist of the input ids). -/
theorem source_filter_box_semantics (f : SourceFilter) (sc : SiteCollection)
    (src : Source) (box : Box)
    (hf : f.sitecol = some sc) (hpre : f.prefilter = .rtree)
    (hidx : src.indices = none) (hbox : f.get_affected_box src = .ok box) :
    ((∀ s ∈ sc.sites, ¬ inBox box s) → f.step sc src = .ok (src, none))
    ∧ ((∀ s ∈ sc.sites, inBox box s) →
        (∀ i (h : i < sc.sites.length), (sc.sites.get ⟨i, h⟩).sid = i) →
        sc.sites ≠ [] →
        (f.step sc src).map Prod.snd = .ok (some sc.sites))
    ∧ (∀ (sources : List Source) (pairs : List (Source × List Site)),
        f.callList sources sc = .ok pairs →
        (pairs.map fun p => p.1.source_id).Sublist (sources.map Source.source_id)) := by
  refine ⟨?_, ?_, callList_order f sc⟩
  · intro hout
    have hw : withinBox box sc.sites = [] := withinAux_nil_of_out box sc.sites hout 0
    simp [SourceFilter.step, hidx, hpre, hbox, hf, withinBox] at hw ⊢
    simp [hw]
  · intro hin hsids hne
    have hw : withinBox box sc.sites = List.range' 0 sc.sites.length :=
      withinAux_all_in box sc.sites hin 0
    have hlen : sc.sites.length ≠ 0 := fun h => hne (List.length_eq_zero.mp h)
    have hwne : ¬ (withinBox box sc.sites).isEmpty = true := by
      rw [hw, List.isEmpty_iff]
      intro h
      have hc := congrArg List.length h
      simp at hc
      exact hne hc
    simp only [SourceFilter.step, hidx, hpre, hbox, hf]
    rw [show (Option.map SiteCollection.sites (some sc)).getD [] = sc.sites from rfl]
    rw [if_neg hwne, hw, filtered_range'_all sc hsids]
    rfl

/-- Witness for C4: the rtree filter drops the source whose box `[100,110]²`
misses both sites of `scAB`. -/
theorem source_filter_box_semantics_witness :
    rtreeFilterAB.step scAB srcFar = .ok (srcFar, none) := by
  have hbox : rtreeFilterAB.get_affected_box srcFar = .ok ⟨100, 100, 110, 110⟩ := by
    have h0 : rtreeFilterAB.get_affected_box srcFar
        = .ok ⟨fixLon 100, 100, fixLon 110, 110⟩ := rfl
    rw [h0, fixLon_of_lt 100 (by norm_num) (by norm_num),
      fixLon_of_lt 110 (by norm_num) (by norm_num)]
  refine (source_filter_box_semantics rtreeFilterAB scAB srcFar
    ⟨100, 100, 110, 110⟩ rfl rfl rfl hbox).1 ?_
  intro s hs
  have hs' : s = siteA ∨ s = siteB := by
    simpa [scAB] using hs
  rcases hs' with rfl | rfl <;> simp [inBox, siteA, siteB] <;> norm_num

/-- C5: filtering is idempotent per source: for any source yielded by a
first filter call, a second call on the yielded source returns the same
site subset; when the first call cached an index set on the source, the
second call is served from that cache — its result does not depend on the
filter configuration nor on the source's bounding-box geometry. -/
theorem source_filter_idempotent (f : SourceFilter) (sites : SiteCollection)
    (src src1 : Source) (ys : List Site)
    (hsid : (sites.sites.map Site.sid).Nodup)
    (h1 : f.step sites src = .ok (src1, some ys)) :
    f.step sites src1 = .ok (src1, some ys)
    ∧ (∀ (g : SourceFilter) (b : ℚ → Box) (idxs : List ℕ), src1.indices = some idxs →
        g.step sites { src1 with boxOf := b }
          = .ok ({ src1 with boxOf := b }, some (sites.filtered idxs))) := by
  constructor
  · cases hidx : src.indices with
    | some idxs =>
      have hstep : f.step sites src = .ok (src, some (sites.filtered idxs)) := by
        simp [SourceFilter.step, hidx]
      rw [hstep] at h1
      simp only [Except.ok.injEq, Prod.mk.injEq, Option.some.injEq] at h1
      obtain ⟨rfl, rfl⟩ := h1
      exact hstep
    | none =>
      cases hpre : f.prefilter with
      | no =>
        have hstep : f.step sites src = .ok (src, some sites.sites) := by
          simp [SourceFilter.step, hidx, hpre]
        rw [hstep] at h1
        simp only [Except.ok.injEq, Prod.mk.injEq, Option.some.injEq] at h1
        obtain ⟨rfl, rfl⟩ := h1
        exact hstep
      | rtree =>
        cases hbox : f.get_affected_box src with
        | error e =>
          have hstep : f.step sites src = .error e := by
            simp [SourceFilter.step, hidx, hpre, hbox]
          rw [hstep] at h1
          exact absurd h1 (by simp)
        | ok box =>
          by_cases hemp :
              (withinBox box ((f.sitecol.map SiteCollection.sites).getD [])).isEmpty = true
          · have hstep : f.step sites src = .ok (src, none) := by
              simp [SourceFilter.step, hidx, hpre, hbox, hemp]
            rw [hstep] at h1
            exact absurd h1 (by simp)
          · have hstep : f.step sites src = .ok ({ src with indices := some (withinBox box ((f.sitecol.map SiteCollection.sites).getD [])) }, some (sites.filtered (withinBox box ((f.sitecol.map SiteCollection.sites).getD [])))) := by
              simp [SourceFilter.step, hidx, hpre, hbox, hemp]
            rw [hstep] at h1
            simp only [Except.ok.injEq, Prod.mk.injEq, Option.some.injEq] at h1
            obtain ⟨rfl, rfl⟩ := h1
            simp [SourceFilter.step]
      | numpyStrategy =>
        cases hbox : f.get_affected_box src with
        | error e =>
          have hstep : f.step sites src = .error e := by
            simp [SourceFilter.step, hidx, hpre, hbox]
          rw [hstep] at h1
          exact absurd h1 (by simp)
        | ok box =>
          by_cases hemp :
              (sites.sites.filter fun s => decide (inBox box s)).isEmpty = true
          · have hstep : f.step sites src = .ok (src, none) := by
              simp [SourceFilter.step, hidx, hpre, hbox, hemp]
            rw [hstep] at h1
            exact absurd h1 (by simp)
          · have hstep : f.step sites src = .ok ({ src with indices := some ((sites.sites.filter fun s => decide (inBox box s)).map Site.sid) }, some (sites.sites.filter fun s => decide (inBox box s))) := by
              simp [SourceFilter.step, hidx, hpre, hbox, hemp]
            rw [hstep] at h1
            simp only [Except.ok.injEq, Prod.mk.injEq, Option.some.injEq] at h1
            obtain ⟨rfl, rfl⟩ := h1
            simp only [SourceFilter.step]
            rw [filtered_filter_map_sid sites hsid]
  · intro g b idxs hidx
    unfold SourceFilter.step
    rw [show ({ src1 with boxOf := b } : Source).indices = some idxs from hidx]

/-- Witness for C5: a second filter call on the cached source returns the
same subset, also through the no-op filter with a different bounding box. -/
theorem source_filter_idempotent_witness :
    rtreeFilterAB.step scAB srcCached = .ok (srcCached, some [siteB])
    ∧ source_site_noop_filter.step scAB
        { srcCached with boxOf := fun _ => ⟨50, 50, 60, 60⟩ }
      = .ok ({ srcCached with boxOf := fun _ => ⟨50, 50, 60, 60⟩ },
          some (scAB.filtered [1])) := by
  have h := source_filter_idempotent rtreeFilterAB scAB srcCached srcCached [siteB]
    (by decide) rfl
  exact ⟨h.1, h.2 source_site_noop_filter (fun _ => ⟨50, 50, 60, 60⟩) [1] rfl⟩

/-- C7 (counterexample): a `ValueError` raised while filtering the sites of
the source with id 42 propagates out of `gen_ruptures` with its message
unchanged — no source identifier is annotated into it, because
`gen_ruptures` does not wrap the filtering in the `context` manager.  This
refutes the claim that the pipeline re-raises with the id annotated. -/
theorem gen_ruptures_unannotated_cex :
    gen_ruptures [badSource] ⟨[], 0⟩ 100 = .error ⟨"ValueError", "boom"⟩
    ∧ (⟨"ValueError", "boom"⟩ : PyErr)
        ≠ PyErr.annotated badSource.source_id ⟨"ValueError", "boom"⟩ := by
  exact ⟨rfl, by decide⟩

/-- C7 (amended): an exception raised while filtering a source's sites in
`gen_ruptures` propagates to the caller unchanged — the original exception
type and message, never swallowed, never a silent skip — but without any
source-id annotation; the `context` helper of filters.py (which
`gen_ruptures` does not use) is what re-raises with the id annotated into
the message while preserving the exception type. -/
theorem gen_ruptures_error_propagation (src : Source) (rest : List Source)
    (sc : SiteCollection) (dist : ℚ) (e : PyErr)
    (hfail : src.filterSites dist sc = .error e) :
    gen_ruptures (src :: rest) sc dist = .error e
    ∧ (∀ (α : Type) (a : α), context src (.ok a) = (.ok a : Except PyErr α))
    ∧ (∀ (α : Type), context src (.error e : Except PyErr α)
        = .error ⟨e.kind, "An error occurred with source id=" ++ src.source_id
            ++ ". Error: " ++ e.msg⟩) := by
  refine ⟨?_, fun α a => rfl, fun α => rfl⟩
  simp [gen_ruptures, hfail]

/-- Witness for the amended C7, at the concrete failing source. -/
theorem gen_ruptures_error_propagation_witness :
    gen_ruptures [badSource] ⟨[], 0⟩ 100 = .error ⟨"ValueError", "boom"⟩
    ∧ context badSource (.error ⟨"ValueError", "boom"⟩ : Except PyErr Unit)
        = .error ⟨"ValueError",
            "An error occurred with source id=42. Error: boom"⟩ := by
  have h := gen_ruptures_error_propagation badSource [] ⟨[], 0⟩ 100
    ⟨"ValueError", "boom"⟩ rfl
  exact ⟨h.1, h.2.2 Unit⟩

end OQ
